import Mathlib

/-!
Shallow embedding of the generic list-query construction and pagination
engine of the repository (QueryBuilderService, CacheService and the cached
list path of UsersService), together with proofs of the specification's
claims about it.

JavaScript values flowing through the filter map are modelled by `JsValue`;
the TypeORM `SelectQueryBuilder`, as observed by this service, is modelled
by its accumulated predicate clauses, order clauses and skip/take settings.
`Date.now()` is modelled as an ambient natural-number timestamp passed to
the call; it has millisecond resolution, so all calls within one request
may observe the same value, which is the case the model captures.
-/

set_option autoImplicit false

namespace QueryEngine

/-- A JavaScript runtime value, as far as the filter pipeline inspects it:
`typeof v === "object"`, `v !== null`, `Array.isArray(v)` and string-ness
are the only discriminations the source performs. -/
inductive JsValue where
  | null
  | bool (b : Bool)
  | num (n : Int)
  | str (s : String)
  | arr (elems : List JsValue)
  | obj (fields : List (String × JsValue))

/-- Sort direction ("ASC" | "DESC"). -/
inductive SortDir where
  | ASC
  | DESC
deriving Repr, DecidableEq

/-- The TypeORM `SelectQueryBuilder`, modelled by the state this service
mutates: `andWhere` clauses with their bound parameters, order clauses,
and the skip/take pagination settings. -/
structure SelectQueryBuilder where
  wheres : List (String × List (String × JsValue)) := []
  orders : List (String × SortDir) := []
  skipCount : Option Int := none
  takeCount : Option Int := none

/-- Model of `queryBuilder.andWhere(clause, params)`: appends one predicate
clause. -/
def SelectQueryBuilder.andWhere (qb : SelectQueryBuilder) (clause : String)
    (params : List (String × JsValue)) : SelectQueryBuilder :=
  { qb with wheres := qb.wheres ++ [(clause, params)] }

/-- Model of `queryBuilder.orderBy(field, dir)`: replaces all order
clauses. -/
def SelectQueryBuilder.orderBy (qb : SelectQueryBuilder) (field : String)
    (dir : SortDir) : SelectQueryBuilder :=
  { qb with orders := [(field, dir)] }

/-- Model of `queryBuilder.addOrderBy(field, dir)`: appends one order
clause. -/
def SelectQueryBuilder.addOrderBy (qb : SelectQueryBuilder) (field : String)
    (dir : SortDir) : SelectQueryBuilder :=
  { qb with orders := qb.orders ++ [(field, dir)] }

/-- Model of `queryBuilder.skip(n)`. -/
def SelectQueryBuilder.skip (qb : SelectQueryBuilder) (n : Int) : SelectQueryBuilder :=
  { qb with skipCount := some n }

/-- Model of `queryBuilder.take(n)`. -/
def SelectQueryBuilder.take (qb : SelectQueryBuilder) (n : Int) : SelectQueryBuilder :=
  { qb with takeCount := some n }

/-- The empty query builder (fresh `createQueryBuilder`). -/
def emptyQB : SelectQueryBuilder := {}

/-- The parameter names bound across all predicate clauses of a builder. -/
def paramBindingNames (qb : SelectQueryBuilder) : List String :=
  (qb.wheres.map (fun w => w.2.map Prod.fst)).flatten

/-- The `PaginationQueryDto` runtime shape: optional numeric `page` and
`limit`. -/
structure PaginationQueryDto where
  page : Option Int := none
  limit : Option Int := none
deriving Repr, DecidableEq

/-- The `QueryDto` runtime shape, extending `PaginationQueryDto` with sort
and filter parameters.
`filters` is a plain JS object: an insertion-ordered association list with
(by JS object semantics) pairwise-distinct keys. -/
structure QueryDto where
  page : Option Int := none
  limit : Option Int := none
  sortBy : Option String := none
  sortOrder : Option SortDir := none
  filters : Option (List (String × JsValue)) := none

/-- JavaScript `v || d` on an optional number: `undefined`, and the falsy
number `0`, fall back to the default. -/
def jsOrDefault (v : Option Int) (d : Int) : Int :=
  match v with
  | none => d
  | some n => if n = 0 then d else n

/-- The effective page: `paginationDto.page || 1`. -/
def effectivePage (page : Option Int) : Int :=
  jsOrDefault page 1

/-- The effective limit: `Math.min(paginationDto.limit || 10, 100)` — the
expression duplicated verbatim in `applyPagination` and `paginate`. -/
def effectiveLimit (limit : Option Int) : Int :=
  min (jsOrDefault limit 10) 100

/-- Model of `QueryBuilderService.applyPagination`. -/
def applyPagination (qb : SelectQueryBuilder) (paginationDto : PaginationQueryDto) :
    SelectQueryBuilder :=
  let page := effectivePage paginationDto.page
  let limit := effectiveLimit paginationDto.limit
  let skip := (page - 1) * limit
  (qb.skip skip).take limit

/-- Pagination metadata as assembled by `paginate`. -/
structure PageMetadata where
  page : Int
  limit : Int
  totalCount : Nat
  totalPages : Int
  hasNextPage : Bool
  hasPreviousPage : Bool
deriving Repr, DecidableEq

/-- The `{ data, metadata }` response shape. -/
structure PaginatedResponse (α : Type) where
  data : List α
  metadata : PageMetadata

/-- Model of `QueryBuilderService.paginate`: the store's `getManyAndCount()` result is
supplied as `(data, totalCount)`; `Math.ceil(totalCount / limit)` is exact
rational division followed by ceiling. -/
def paginate {α : Type} (queryDto : QueryDto) (data : List α) (totalCount : Nat) :
    PaginatedResponse α :=
  let page := effectivePage queryDto.page
  let limit := effectiveLimit queryDto.limit
  let totalPages : Int := ⌈(totalCount : ℚ) / (limit : ℚ)⌉
  let hasNextPage := decide (page < totalPages)
  let hasPreviousPage := decide (page > 1)
  { data := data
    metadata :=
      { page := page, limit := limit, totalCount := totalCount
        totalPages := totalPages, hasNextPage := hasNextPage
        hasPreviousPage := hasPreviousPage } }

/-- A thrown `BadRequestException` carries its message together with the
builder state at throw time: the service mutates the builder in place, so
the caller observes whatever clauses were added before the throw. -/
abbrev QBResult := Except (String × SelectQueryBuilder) SelectQueryBuilder

/-- JavaScript `String.prototype.split` with a single-character separator,
on the character list: splitting never yields an empty list of pieces. -/
def splitCharsAux (sep : Char) : List Char → List (List Char)
  | [] => [[]]
  | c :: cs =>
    if c = sep then [] :: splitCharsAux sep cs
    else
      match splitCharsAux sep cs with
      | [] => [[c]]
      | piece :: more => (c :: piece) :: more

/-- JavaScript `s.split(sep)` for a one-character separator. -/
def jsSplit (s : String) (sep : Char) : List String :=
  (splitCharsAux sep s.data).map String.mk

/-- JavaScript `String.prototype.trim`: strips leading and trailing
whitespace. -/
def jsTrim (s : String) : String :=
  String.mk (((s.data.dropWhile Char.isWhitespace).reverse.dropWhile
    Char.isWhitespace).reverse)

/-- The tail of `applySorting`'s forEach: fields after the first use
`addOrderBy`. -/
def addOrderClauses (qb : SelectQueryBuilder) (fields : List String)
    (dir : SortDir) (entityAlias : String) : SelectQueryBuilder :=
  match fields with
  | [] => qb
  | f :: rest => addOrderClauses (qb.addOrderBy (entityAlias ++ "." ++ f) dir) rest dir entityAlias

/-- Model of `QueryBuilderService.applySorting`. Note `sortBy` is falsy
when absent or the empty string; the `sortOrder` default parameter is
`"DESC"`. -/
def applySorting (qb : SelectQueryBuilder) (sortBy : Option String)
    (sortOrder : Option SortDir) (allowedFields : List String) (entityAlias : String) :
    QBResult :=
  let dir := sortOrder.getD .DESC
  match sortBy with
  | none => .ok (qb.orderBy (entityAlias ++ ".id") .DESC)
  | some s =>
    if s = "" then .ok (qb.orderBy (entityAlias ++ ".id") .DESC)
    else
      let sortFields := (jsSplit s ',').map jsTrim
      match sortFields.find? (fun f => !(allowedFields.contains f)) with
      | some f =>
        .error ("Invalid sort field: " ++ f ++ ". Allowed fields: " ++
          String.intercalate ", " allowedFields, qb)
      | none =>
        match sortFields with
        | [] => .ok qb
        | f :: rest => .ok (addOrderClauses (qb.orderBy (entityAlias ++ "." ++ f) dir) rest dir entityAlias)

/-- Model of `field.replace(/\./g, "_")`. -/
def sanitizeField (field : String) : String :=
  String.mk (field.data.map (fun c => if c = '.' then '_' else c))

/-- Model of `QueryBuilderService.generateParamName`: sanitized field,
optional operator, and the `Date.now()` timestamp. -/
def generateParamName (field : String) (operator : Option String) (ts : Nat) : String :=
  let sanitizedField := sanitizeField field
  match operator with
  | some op => sanitizedField ++ "_" ++ op ++ "_" ++ toString ts
  | none => sanitizedField ++ "_" ++ toString ts

/-- Model of `pattern.replace(/\\/g, "\\\\")` on the character list. -/
def escapeBackslashChars : List Char → List Char
  | [] => []
  | c :: cs =>
    if c = '\\' then '\\' :: '\\' :: escapeBackslashChars cs
    else c :: escapeBackslashChars cs

/-- Model of `pattern.replace(/[%_]/g, "\\$&")` on the character list. -/
def escapePercentUnderscoreChars : List Char → List Char
  | [] => []
  | c :: cs =>
    if c = '%' ∨ c = '_' then '\\' :: c :: escapePercentUnderscoreChars cs
    else c :: escapePercentUnderscoreChars cs

/-- Model of `QueryBuilderService.escapeLikePattern`: non-strings are returned
unchanged; strings get backslashes doubled first, then `%` and `_`
backslash-escaped. -/
def escapeLikePattern (pattern : JsValue) : JsValue :=
  match pattern with
  | .str s =>
    .str (String.mk (escapePercentUnderscoreChars (escapeBackslashChars s.data)))
  | v => v

mutual

/-- JavaScript template-literal stringification `${v}`, as far as the LIKE
branch needs it (a string interpolates as itself). -/
def jsTemplateStr : JsValue → String
  | .null => "null"
  | .bool b => if b then "true" else "false"
  | .num n => toString n
  | .str s => s
  | .arr xs => jsTemplateStrList xs
  | .obj _ => "[object Object]"

/-- Array stringification: elements joined with commas. -/
def jsTemplateStrList : List JsValue → String
  | [] => ""
  | [v] => jsTemplateStr v
  | v :: rest => jsTemplateStr v ++ "," ++ jsTemplateStrList rest

end

/-- The operator strings of the `FilterOperator` enum. -/
def supportedOperators : List String :=
  ["eq", "ne", "gt", "gte", "lt", "lte", "like", "in"]

/-- Model of `QueryBuilderService.applyFilterOperator`. -/
def applyFilterOperator (qb : SelectQueryBuilder) (fieldPath : String)
    (operator : String) (value : JsValue) (field : String) (ts : Nat) : QBResult :=
  let paramName := generateParamName field (some operator) ts
  if operator = "eq" then
    .ok (qb.andWhere (fieldPath ++ " = :" ++ paramName) [(paramName, value)])
  else if operator = "ne" then
    .ok (qb.andWhere (fieldPath ++ " != :" ++ paramName) [(paramName, value)])
  else if operator = "gt" then
    .ok (qb.andWhere (fieldPath ++ " > :" ++ paramName) [(paramName, value)])
  else if operator = "gte" then
    .ok (qb.andWhere (fieldPath ++ " >= :" ++ paramName) [(paramName, value)])
  else if operator = "lt" then
    .ok (qb.andWhere (fieldPath ++ " < :" ++ paramName) [(paramName, value)])
  else if operator = "lte" then
    .ok (qb.andWhere (fieldPath ++ " <= :" ++ paramName) [(paramName, value)])
  else if operator = "like" then
    let escapedValue := escapeLikePattern value
    .ok (qb.andWhere ("LOWER(" ++ fieldPath ++ ") LIKE LOWER(:" ++ paramName ++ ")")
      [(paramName, .str ("%" ++ jsTemplateStr escapedValue ++ "%"))])
  else if operator = "in" then
    match value with
    | .arr _ => .ok (qb.andWhere (fieldPath ++ " IN (:..." ++ paramName ++ ")")
        [(paramName, value)])
    | _ => .ok qb
  else
    .error ("Unsupported filter operator: " ++ operator, qb)

/-- The inner `Object.entries(filterValue).forEach` of `applyFilters`,
threading the throw of `applyFilterOperator`. -/
def applyOperatorList (qb : SelectQueryBuilder) (fieldPath : String)
    (ops : List (String × JsValue)) (field : String) (ts : Nat) : QBResult :=
  match ops with
  | [] => .ok qb
  | (op, v) :: rest =>
    match applyFilterOperator qb fieldPath op v field ts with
    | .error e => .error e
    | .ok qb' => applyOperatorList qb' fieldPath rest field ts

/-- The outer `Object.entries(filters).forEach` of `applyFilters`: a value
that is a non-null non-array object is an operator map; anything else
(scalars, `null`, and arrays) is a simple equality filter. -/
def applyFilterEntries (qb : SelectQueryBuilder) (entries : List (String × JsValue))
    (entityAlias : String) (ts : Nat) : QBResult :=
  match entries with
  | [] => .ok qb
  | (field, filterValue) :: rest =>
    let fieldPath := if field.data.contains '.' then field else entityAlias ++ "." ++ field
    match filterValue with
    | .obj ops =>
      match applyOperatorList qb fieldPath ops field ts with
      | .error e => .error e
      | .ok qb' => applyFilterEntries qb' rest entityAlias ts
    | v =>
      let paramName := generateParamName field none ts
      applyFilterEntries
        (qb.andWhere (fieldPath ++ " = :" ++ paramName) [(paramName, v)]) rest entityAlias ts

/-- Model of `QueryBuilderService.applyFilters`: validates every filter field against
the allowlist up front (throwing at the first offender, before any clause is
emitted), then processes the entries in insertion order. -/
def applyFilters (qb : SelectQueryBuilder) (filters : Option (List (String × JsValue)))
    (allowedFields : List String) (entityAlias : String) (ts : Nat) : QBResult :=
  match filters with
  | none => .ok qb
  | some fs =>
    if fs.isEmpty then .ok qb
    else
      match (fs.map Prod.fst).find? (fun f => !(allowedFields.contains f)) with
      | some f =>
        .error ("Invalid filter field: " ++ f ++ ". Allowed fields: " ++
          String.intercalate ", " allowedFields, qb)
      | none => applyFilterEntries qb fs entityAlias ts

/-- The outcome of an awaited promise: resolution with a value, or a
rejection that propagates as an exception through un-caught `await`s. -/
inductive Await (α : Type) where
  | resolved (a : α)
  | rejected (err : String)

/-- The behaviour of the external Redis client and of `JSON.parse` during
one `findAll` request. `redisGet` is the outcome of `this.redis.get(key)`;
`parse s = none` models a `JSON.parse` throw (or a falsy parse result,
which the `if (cachedResult)` truthiness check also treats as a miss);
`redisSet` is the outcome of `this.redis.set(key, value, "EX", ttl)`. -/
structure CacheEnv (V : Type) where
  redisGet : Await (Option String)
  parse : String → Option V
  redisSet : Await Unit

/-- Model of `CacheService.get`: a rejected Redis read propagates; a missing key
yields `null`; a stored string is `JSON.parse`d inside `try/catch`, with a
parse failure caught and turned into `null`. -/
def cacheServiceGet {V : Type} (env : CacheEnv V) : Await (Option V) :=
  match env.redisGet with
  | .rejected e => .rejected e
  | .resolved none => .resolved none
  | .resolved (some s) => .resolved (env.parse s)

/-- Model of `CacheService.set`: stringifies and writes; the Redis write outcome
propagates unhandled. -/
def cacheServiceSet {V : Type} (env : CacheEnv V) : Await Unit :=
  env.redisSet

/-- The cache path of `UsersService.findAll`: `await cacheService.get`,
return the hit if truthy, otherwise run the query pipeline (its successful
primary response is `primary`), `await cacheService.set`, and return the
primary response. Neither awaited cache call is wrapped in any try/catch. -/
def findAll {V : Type} (env : CacheEnv V) (primary : V) : Await V :=
  match cacheServiceGet env with
  | .rejected e => .rejected e
  | .resolved (some cached) => .resolved cached
  | .resolved none =>
    match cacheServiceSet env with
    | .rejected e => .rejected e
    | .resolved _ => .resolved primary

/-- Whether a supported operator emits a predicate clause for the given
value: only `in` applied to a non-array value is a silent no-op. -/
def emitsClause (operator : String) (value : JsValue) : Bool :=
  if operator = "in" then
    match value with
    | .arr _ => true
    | _ => false
  else true

/-- Modelled from the spec's words for comparison with the source's
two-pass `escapeLikePattern`: a single pass that backslash-escapes every
backslash, `%` and `_`. -/
def specLikeEscapeChars : List Char → List Char
  | [] => []
  | c :: cs =>
    if c = '\\' ∨ c = '%' ∨ c = '_' then '\\' :: c :: specLikeEscapeChars cs
    else c :: specLikeEscapeChars cs

/-- The spec-side LIKE escape on strings. -/
def specLikeEscape (s : String) : String :=
  String.mk (specLikeEscapeChars s.data)

/-! ## Theorems -/

/-- C7: For every page ≥ 1 and every limit in [1, 100], `applyPagination`
sets the query offset (skip) to exactly `(page - 1) * limit` and the take
value to `limit`. -/
theorem applyPagination_offset (qb : SelectQueryBuilder) (p l : Int)
    (hp : 1 ≤ p) (hl1 : 1 ≤ l) (hl2 : l ≤ 100) :
    applyPagination qb { page := some p, limit := some l } =
      { qb with skipCount := some ((p - 1) * l), takeCount := some l } := by
  have hp0 : ¬ p = 0 := by omega
  have hl0 : ¬ l = 0 := by omega
  have hmin : min l 100 = l := min_eq_left hl2
  simp [applyPagination, effectivePage, effectiveLimit, jsOrDefault, hp0, hl0, hmin,
    SelectQueryBuilder.skip, SelectQueryBuilder.take]

/-- Witness for C7: page 3 with limit 20 yields offset 40. -/
theorem applyPagination_offset_witness :
    applyPagination emptyQB { page := some 3, limit := some 20 } =
      { emptyQB with skipCount := some ((3 - 1) * 20), takeCount := some 20 } :=
  applyPagination_offset emptyQB 3 20 (by norm_num) (by norm_num) (by norm_num)

/-- C1 counterexample: a requested limit of 0 is not clamped to
`min(max(0, 1), 100) = 1`; the `limit || 10` fallback makes the effective
take value and metadata limit 10 instead. -/
theorem limit_clamp_counterexample :
    (applyPagination emptyQB { page := some 1, limit := some 0 }).takeCount = some 10 ∧
    (paginate { page := some 1, limit := some 0 } ([] : List Unit) 0).metadata.limit = 10 ∧
    ¬ ((10 : Int) = min (max 0 1) 100) := by
  refine ⟨rfl, rfl, by decide⟩

/-- C1 (amended): the take value of `applyPagination` and the metadata
limit of `paginate` both equal `min(limit || 10, 100)`: a requested limit
L ≥ 1 becomes `min(L, 100)` (so limits above 100 are silently clamped to
100), a requested limit of 0 or an absent limit falls back to the default
10, and a negative limit passes through unclamped — no lower clamp to 1
exists in either function. -/
theorem effective_limit_characterization (qb : SelectQueryBuilder)
    (pdto : PaginationQueryDto) {α : Type} (qdto : QueryDto) (data : List α) (t : Nat) :
    (applyPagination qb pdto).takeCount = some (effectiveLimit pdto.limit) ∧
    (paginate qdto data t).metadata.limit = effectiveLimit qdto.limit ∧
    (∀ L : Int, 1 ≤ L → effectiveLimit (some L) = min L 100) ∧
    effectiveLimit (some 0) = 10 ∧
    (∀ L : Int, L < 0 → effectiveLimit (some L) = L) ∧
    effectiveLimit none = 10 := by
  refine ⟨rfl, rfl, ?_, rfl, ?_, rfl⟩
  · intro L hL
    have h0 : ¬ L = 0 := by omega
    simp [effectiveLimit, jsOrDefault, h0]
  · intro L hL
    have h0 : ¬ L = 0 := by omega
    have hmin : min L 100 = L := min_eq_left (by omega)
    simp [effectiveLimit, jsOrDefault, h0, hmin]

/-- Witness for C1 (amended): requested limit 150 is clamped to 100 and
requested limit -5 passes through. -/
theorem effective_limit_characterization_witness :
    effectiveLimit (some 150) = min (150 : Int) 100 ∧ effectiveLimit (some (-5)) = -5 :=
  ⟨(effective_limit_characterization emptyQB {} (α := Unit) {} [] 0).2.2.1 150 (by norm_num),
   (effective_limit_characterization emptyQB {} (α := Unit) {} [] 0).2.2.2.2.1 (-5) (by norm_num)⟩

/-- Exact rational ceiling division of naturals agrees with the rounded-up
natural division `(t + d - 1) / d`. -/
lemma ceil_natCast_div_eq (t d : ℕ) (hd : 0 < d) :
    ⌈(t : ℚ) / (d : ℚ)⌉ = (((t + d - 1) / d : ℕ) : ℤ) := by
  have hdq : (0 : ℚ) < (d : ℚ) := by exact_mod_cast hd
  have hsum : 1 ≤ t + d := by omega
  have hmod := Nat.div_add_mod (t + d - 1) d
  have hlt : (t + d - 1) % d < d := Nat.mod_lt _ hd
  set z : ℕ := (t + d - 1) / d with hz
  set r : ℕ := (t + d - 1) % d with hr
  have hw : d * z + r = t + d - 1 := hmod
  have hA : t ≤ d * z := by
    set w := d * z with hwdef
    clear_value w
    omega
  have hB : d * z ≤ t + d - 1 := by
    set w := d * z with hwdef
    clear_value w
    omega
  rw [Int.ceil_eq_iff]
  have hcast : ((t + d - 1 : ℕ) : ℚ) = (t : ℚ) + d - 1 := by
    rw [Nat.cast_sub hsum]
    push_cast
    ring
  constructor
  · rw [sub_lt_iff_lt_add, div_add' _ _ _ (ne_of_gt hdq)]
    rw [lt_div_iff₀ hdq]
    have hBq : ((d * z : ℕ) : ℚ) ≤ ((t + d - 1 : ℕ) : ℚ) := by exact_mod_cast hB
    rw [hcast] at hBq
    push_cast at hBq ⊢
    nlinarith [hdq]
  · rw [div_le_iff₀ hdq]
    have hAq : ((t : ℕ) : ℚ) ≤ ((d * z : ℕ) : ℚ) := by exact_mod_cast hA
    push_cast at hAq ⊢
    nlinarith [hAq]

/-- C6: for every page, every effective limit ≥ 1 and every store-reported
total count, `paginate` returns metadata with
`totalPages = ceil(totalCount / limit)` (the rounded-up natural division),
`hasNextPage = (page < totalPages)` and `hasPreviousPage = (page > 1)`,
with `page`, `limit`, `totalCount` echoed from the request and count, and
with the metadata independent of the returned data rows. -/
theorem paginate_metadata_formulas {α : Type} (queryDto : QueryDto) (data : List α)
    (t : Nat) (h : 1 ≤ effectiveLimit queryDto.limit) :
    (paginate queryDto data t).metadata.totalPages =
      (((t + (effectiveLimit queryDto.limit).toNat - 1) /
        (effectiveLimit queryDto.limit).toNat : ℕ) : ℤ) ∧
    (paginate queryDto data t).metadata.hasNextPage =
      decide ((paginate queryDto data t).metadata.page <
        (paginate queryDto data t).metadata.totalPages) ∧
    (paginate queryDto data t).metadata.hasPreviousPage =
      decide (1 < (paginate queryDto data t).metadata.page) ∧
    (paginate queryDto data t).metadata.page = effectivePage queryDto.page ∧
    (paginate queryDto data t).metadata.limit = effectiveLimit queryDto.limit ∧
    (paginate queryDto data t).metadata.totalCount = t ∧
    (∀ (β : Type) (rows : List β),
      (paginate queryDto rows t).metadata = (paginate queryDto data t).metadata) := by
  set L : Int := effectiveLimit queryDto.limit with hL
  have hL0 : 0 ≤ L := by omega
  have hLnat : ((L.toNat : ℕ) : Int) = L := Int.toNat_of_nonneg hL0
  have hdpos : 0 < L.toNat := by omega
  have hLq : ((L.toNat : ℕ) : ℚ) = (L : ℚ) := by exact_mod_cast hLnat
  refine ⟨?_, rfl, rfl, rfl, rfl, rfl, fun β rows => rfl⟩
  show ⌈(t : ℚ) / (L : ℚ)⌉ = _
  rw [← hLq]
  exact ceil_natCast_div_eq t L.toNat hdpos

/-- Witness for C6: totalCount 50 with limit 10 at page 5 gives
totalPages 5, no next page, a previous page. -/
theorem paginate_metadata_formulas_witness :
    (paginate { page := some 5, limit := some 10 } ([] : List Unit) 50).metadata.totalPages =
      (((50 + (effectiveLimit (some 10)).toNat - 1) /
        (effectiveLimit (some 10)).toNat : ℕ) : ℤ) ∧
    (paginate { page := some 5, limit := some 10 } ([] : List Unit) 50).metadata.hasNextPage =
      decide ((paginate { page := some 5, limit := some 10 } ([] : List Unit) 50).metadata.page <
        (paginate { page := some 5, limit := some 10 } ([] : List Unit) 50).metadata.totalPages) ∧
    (paginate { page := some 5, limit := some 10 } ([] : List Unit) 50).metadata.hasPreviousPage =
      decide (1 < (paginate { page := some 5, limit := some 10 } ([] : List Unit) 50).metadata.page) := by
  have h := paginate_metadata_formulas (α := Unit)
    { page := some 5, limit := some 10 } [] 50 (by decide)
  exact ⟨h.1, h.2.1, h.2.2.1⟩

/-- Unfolding of `addOrderClauses`: appends one order clause per field, in
field order, touching nothing else in the builder. -/
lemma addOrderClauses_eq (fields : List String) (qb : SelectQueryBuilder)
    (dir : SortDir) (entityAlias : String) :
    addOrderClauses qb fields dir entityAlias =
      { qb with orders := qb.orders ++ fields.map (fun f => (entityAlias ++ "." ++ f, dir)) } := by
  induction fields generalizing qb with
  | nil => simp [addOrderClauses]
  | cons f rest ih =>
    simp [addOrderClauses, SelectQueryBuilder.addOrderBy, ih]

/-- Splitting a character list never produces an empty list of pieces. -/
lemma splitCharsAux_ne_nil (sep : Char) (l : List Char) : splitCharsAux sep l ≠ [] := by
  induction l with
  | nil => simp [splitCharsAux]
  | cons c cs ih =>
    simp only [splitCharsAux]
    by_cases h : c = sep
    · simp [h]
    · simp only [h, if_false]
      cases hcs : splitCharsAux sep cs <;> simp

/-- C8: for a nonempty sortBy string whose whitespace-trimmed
comma-separated fields are all in the allowlist, `applySorting` emits
exactly one order clause per field, in the exact order listed (first field
primary via `orderBy`, the rest as tie-breakers via `addOrderBy`), every
clause carrying the single requested direction and the trimmed field
name. -/
theorem applySorting_multi_field (qb : SelectQueryBuilder) (s : String)
    (dir : SortDir) (allowedFields : List String) (entityAlias : String)
    (hne : ¬ s = "")
    (hall : ∀ g ∈ (jsSplit s ',').map jsTrim, allowedFields.contains g = true) :
    applySorting qb (some s) (some dir) allowedFields entityAlias =
      .ok { qb with orders :=
        ((jsSplit s ',').map jsTrim).map (fun g => (entityAlias ++ "." ++ g, dir)) } := by
  have hnil : (jsSplit s ',').map jsTrim ≠ [] := by
    simp only [jsSplit, List.map_map, ne_eq, List.map_eq_nil_iff]
    exact splitCharsAux_ne_nil ',' s.data
  obtain ⟨f, rest, hfr⟩ := List.exists_cons_of_ne_nil hnil
  have hfind : List.find? (fun g => !(allowedFields.contains g))
      ((jsSplit s ',').map jsTrim) = none := by
    rw [List.find?_eq_none]
    intro g hg
    have h := hall g hg
    have hmem : g ∈ allowedFields := List.mem_of_elem_eq_true h
    simp [hmem]
  simp only [applySorting, hne, if_false, hfind]
  simp only [hfr]
  rw [addOrderClauses_eq]
  simp [SelectQueryBuilder.orderBy]

/-- Witness for C8: sort spec "role,createdAt" with direction ASC produces
the ordered clauses [(user.role, ASC), (user.createdAt, ASC)]. -/
theorem applySorting_multi_field_witness :
    applySorting emptyQB (some "role,createdAt") (some .ASC)
        ["role", "createdAt"] "user" =
      .ok { emptyQB with orders :=
        (((jsSplit "role,createdAt" ',').map jsTrim).map
          (fun g => ("user" ++ "." ++ g, SortDir.ASC))) } :=
  applySorting_multi_field emptyQB "role,createdAt" .ASC ["role", "createdAt"] "user"
    (by decide) (by decide)

/-- C4: any requested filter or sort field outside the corresponding
allowlist makes the engine fail with the `BadRequestException` naming an
offending field and listing the allowlist, and the error carries the
builder exactly as it was passed in: validation of all fields completes
before any `andWhere`/`orderBy` mutation, so a failure leaves the builder
untouched (and the store, which is only consulted by the later `paginate`
step, is never reached). -/
theorem validation_fail_fast :
    (∀ (qb : SelectQueryBuilder) (fs : List (String × JsValue))
      (allowedFields : List String) (entityAlias : String) (ts : Nat),
      (∃ f ∈ fs.map Prod.fst, allowedFields.contains f = false) →
      ∃ g, g ∈ fs.map Prod.fst ∧ allowedFields.contains g = false ∧
        applyFilters qb (some fs) allowedFields entityAlias ts =
          .error ("Invalid filter field: " ++ g ++ ". Allowed fields: " ++
            String.intercalate ", " allowedFields, qb)) ∧
    (∀ (qb : SelectQueryBuilder) (s : String) (sortOrder : Option SortDir)
      (allowedFields : List String) (entityAlias : String),
      ¬ s = "" →
      (∃ f ∈ (jsSplit s ',').map jsTrim, allowedFields.contains f = false) →
      ∃ g, g ∈ (jsSplit s ',').map jsTrim ∧ allowedFields.contains g = false ∧
        applySorting qb (some s) sortOrder allowedFields entityAlias =
          .error ("Invalid sort field: " ++ g ++ ". Allowed fields: " ++
            String.intercalate ", " allowedFields, qb)) := by
  constructor
  · intro qb fs allowedFields entityAlias ts hex
    obtain ⟨f, hf, hcon⟩ := hex
    have hsome : (List.find? (fun x => !(allowedFields.contains x))
        (fs.map Prod.fst)).isSome := by
      rw [List.find?_isSome]
      exact ⟨f, hf, by simp only [hcon, Bool.not_false]⟩
    obtain ⟨g, hg⟩ := Option.isSome_iff_exists.mp hsome
    have hmemg : g ∈ fs.map Prod.fst := List.mem_of_find?_eq_some hg
    have hpg : allowedFields.contains g = false := by
      have := List.find?_some hg
      simpa using this
    have hfs : fs.isEmpty = false := by
      cases fs with
      | nil => simp at hf
      | cons a l => rfl
    refine ⟨g, hmemg, hpg, ?_⟩
    simp only [applyFilters, hfs, Bool.false_eq_true, if_false, hg]
  · intro qb s sortOrder allowedFields entityAlias hne hex
    obtain ⟨f, hf, hcon⟩ := hex
    have hsome : (List.find? (fun x => !(allowedFields.contains x))
        ((jsSplit s ',').map jsTrim)).isSome := by
      rw [List.find?_isSome]
      exact ⟨f, hf, by simp only [hcon, Bool.not_false]⟩
    obtain ⟨g, hg⟩ := Option.isSome_iff_exists.mp hsome
    have hmemg : g ∈ (jsSplit s ',').map jsTrim := List.mem_of_find?_eq_some hg
    have hpg : allowedFields.contains g = false := by
      have := List.find?_some hg
      simpa using this
    refine ⟨g, hmemg, hpg, ?_⟩
    simp only [applySorting, hne, if_false, hg]

/-- Witness for C4: a filter on `password` and a sort on `secret` against
the allowlist `["username", "email"]` both fail with the naming error and
an untouched builder. -/
theorem validation_fail_fast_witness :
    (∃ g, g ∈ ([("password", JsValue.str "x")] : List (String × JsValue)).map Prod.fst ∧
      (["username", "email"] : List String).contains g = false ∧
      applyFilters emptyQB (some [("password", JsValue.str "x")])
          ["username", "email"] "user" 0 =
        .error ("Invalid filter field: " ++ g ++ ". Allowed fields: " ++
          String.intercalate ", " ["username", "email"], emptyQB)) ∧
    (∃ g, g ∈ (jsSplit "secret" ',').map jsTrim ∧
      (["username", "email"] : List String).contains g = false ∧
      applySorting emptyQB (some "secret") none ["username", "email"] "user" =
        .error ("Invalid sort field: " ++ g ++ ". Allowed fields: " ++
          String.intercalate ", " ["username", "email"], emptyQB)) :=
  ⟨validation_fail_fast.1 emptyQB [("password", JsValue.str "x")]
      ["username", "email"] "user" 0 ⟨"password", by decide, by decide⟩,
   validation_fail_fast.2 emptyQB "secret" none ["username", "email"] "user"
      (by decide) ⟨"secret", by decide, by decide⟩⟩

/-- The source's two replace passes (backslashes first, then `%` and `_`)
coincide with the spec's single-pass escape. -/
lemma escape_pipeline_eq_spec (l : List Char) :
    escapePercentUnderscoreChars (escapeBackslashChars l) = specLikeEscapeChars l := by
  induction l with
  | nil => rfl
  | cons c cs ih =>
    by_cases h1 : c = '\\'
    · subst h1
      simp [escapeBackslashChars, escapePercentUnderscoreChars, specLikeEscapeChars, ih]
    · by_cases h2 : c = '%' ∨ c = '_'
      · have h3 : c = '\\' ∨ c = '%' ∨ c = '_' := Or.inr h2
        simp [escapeBackslashChars, escapePercentUnderscoreChars, specLikeEscapeChars,
          h1, h2, h3, ih]
      · have h3 : ¬ (c = '\\' ∨ c = '%' ∨ c = '_') := by
          rintro (h | h) <;> [exact h1 h; exact h2 h]
        simp [escapeBackslashChars, escapePercentUnderscoreChars, specLikeEscapeChars,
          h1, h2, h3, ih]

/-- C5: filtering a string value with the `like` operator emits exactly the
predicate `LOWER(field) LIKE LOWER(:param)` whose bound parameter value is
`'%' + escape(value) + '%'`, where the escape backslash-escapes every
backslash, `%` and `_` of the value — user-supplied wildcard characters
are matched literally. -/
theorem like_operator_escapes (qb : SelectQueryBuilder) (fieldPath field : String)
    (ts : Nat) (s : String) :
    applyFilterOperator qb fieldPath "like" (.str s) field ts =
      .ok (qb.andWhere
        ("LOWER(" ++ fieldPath ++ ") LIKE LOWER(:" ++
          generateParamName field (some "like") ts ++ ")")
        [(generateParamName field (some "like") ts,
          .str ("%" ++ specLikeEscape s ++ "%"))]) := by
  simp [applyFilterOperator, escapeLikePattern, jsTemplateStr, specLikeEscape,
    escape_pipeline_eq_spec]

/-- C9: an operator string outside the closed enumeration fails with the
`BadRequestException` naming the unsupported operator (and an untouched
builder); the `in` operator applied to a non-array value emits no
predicate at all; and every supported operator that emits does so as
exactly one predicate clause carrying exactly one bound parameter under
the generated parameter name. -/
theorem filter_operator_dispatch (qb : SelectQueryBuilder) (fieldPath operator : String)
    (value : JsValue) (field : String) (ts : Nat) :
    (¬ operator ∈ supportedOperators →
      applyFilterOperator qb fieldPath operator value field ts =
        .error ("Unsupported filter operator: " ++ operator, qb)) ∧
    (operator = "in" → (∀ xs, ¬ value = JsValue.arr xs) →
      applyFilterOperator qb fieldPath operator value field ts = .ok qb) ∧
    (operator ∈ supportedOperators → emitsClause operator value = true →
      ∃ clause bound,
        applyFilterOperator qb fieldPath operator value field ts =
          .ok (qb.andWhere clause
            [(generateParamName field (some operator) ts, bound)])) := by
  refine ⟨?_, ?_, ?_⟩
  · intro hns
    simp only [supportedOperators, List.mem_cons, List.not_mem_nil, or_false] at hns
    push_neg at hns
    obtain ⟨h1, h2, h3, h4, h5, h6, h7, h8⟩ := hns
    simp [applyFilterOperator, h1, h2, h3, h4, h5, h6, h7, h8]
  · intro hin hnar
    subst hin
    cases value with
    | arr xs => exact absurd rfl (hnar xs)
    | null => simp [applyFilterOperator]
    | bool b => simp [applyFilterOperator]
    | num n => simp [applyFilterOperator]
    | str s => simp [applyFilterOperator]
    | obj fields => simp [applyFilterOperator]
  · intro hmem hemit
    simp only [supportedOperators, List.mem_cons, List.not_mem_nil, or_false] at hmem
    rcases hmem with h | h | h | h | h | h | h | h <;> subst h
    · exact ⟨fieldPath ++ " = :" ++ generateParamName field (some "eq") ts, value,
        by simp [applyFilterOperator]⟩
    · exact ⟨fieldPath ++ " != :" ++ generateParamName field (some "ne") ts, value,
        by simp [applyFilterOperator]⟩
    · exact ⟨fieldPath ++ " > :" ++ generateParamName field (some "gt") ts, value,
        by simp [applyFilterOperator]⟩
    · exact ⟨fieldPath ++ " >= :" ++ generateParamName field (some "gte") ts, value,
        by simp [applyFilterOperator]⟩
    · exact ⟨fieldPath ++ " < :" ++ generateParamName field (some "lt") ts, value,
        by simp [applyFilterOperator]⟩
    · exact ⟨fieldPath ++ " <= :" ++ generateParamName field (some "lte") ts, value,
        by simp [applyFilterOperator]⟩
    · exact ⟨"LOWER(" ++ fieldPath ++ ") LIKE LOWER(:" ++
          generateParamName field (some "like") ts ++ ")",
        .str ("%" ++ jsTemplateStr (escapeLikePattern value) ++ "%"),
        by simp [applyFilterOperator]⟩
    · cases value with
      | arr xs =>
        exact ⟨fieldPath ++ " IN (:..." ++ generateParamName field (some "in") ts ++ ")",
          .arr xs, by simp [applyFilterOperator]⟩
      | null => simp [emitsClause] at hemit
      | bool b => simp [emitsClause] at hemit
      | num n => simp [emitsClause] at hemit
      | str s => simp [emitsClause] at hemit
      | obj fields => simp [emitsClause] at hemit

/-- Witness for C9: the unknown operator `foo` is rejected with the naming
error, `in` over the scalar 1 is a silent no-op, and `gt` emits one bound
predicate. -/
theorem filter_operator_dispatch_witness :
    applyFilterOperator emptyQB "user.age" "foo" (.num 1) "age" 0 =
      .error ("Unsupported filter operator: " ++ "foo", emptyQB) ∧
    applyFilterOperator emptyQB "user.age" "in" (.num 1) "age" 0 = .ok emptyQB ∧
    (∃ clause bound,
      applyFilterOperator emptyQB "user.age" "gt" (.num 18) "age" 0 =
        .ok (emptyQB.andWhere clause
          [(generateParamName "age" (some "gt") 0, bound)])) :=
  ⟨(filter_operator_dispatch emptyQB "user.age" "foo" (.num 1) "age" 0).1 (by decide),
   (filter_operator_dispatch emptyQB "user.age" "in" (.num 1) "age" 0).2.1 rfl
     (fun xs h => by cases h),
   (filter_operator_dispatch emptyQB "user.age" "gt" (.num 18) "age" 0).2.2
     (by decide) rfl⟩

/-- C10: a filter whose value is an array given directly at the top level
(not nested under an operator key) is treated as a simple equality filter:
one parameterized `field = :param` predicate binding the array value
itself — neither interpreted as an `in` filter nor rejected. -/
theorem top_level_array_is_equality (qb : SelectQueryBuilder) (field : String)
    (xs : List JsValue) (allowedFields : List String) (entityAlias : String) (ts : Nat)
    (h : allowedFields.contains field = true) :
    applyFilters qb (some [(field, .arr xs)]) allowedFields entityAlias ts =
      .ok (qb.andWhere
        ((if field.data.contains '.' then field else entityAlias ++ "." ++ field) ++
          " = :" ++ generateParamName field none ts)
        [(generateParamName field none ts, .arr xs)]) := by
  have hfind : List.find? (fun x => !(allowedFields.contains x)) [field] = none := by
    rw [List.find?_eq_none]
    intro g hg
    simp only [List.mem_singleton] at hg
    subst hg
    simp only [h, Bool.not_true, Bool.false_eq_true, not_false_eq_true]
  simp only [applyFilters, List.isEmpty_cons, Bool.false_eq_true, if_false,
    List.map_cons, List.map_nil, hfind]
  simp [applyFilterEntries]

/-- Witness for C10: `{role: ["admin", "user"]}` with `role` allowlisted
yields the single equality clause binding the array. -/
theorem top_level_array_is_equality_witness :
    applyFilters emptyQB (some [("role", .arr [.str "admin", .str "user"])])
        ["role"] "user" 0 =
      .ok (emptyQB.andWhere
        ((if "role".data.contains '.' then "role" else "user" ++ "." ++ "role") ++
          " = :" ++ generateParamName "role" none 0)
        [(generateParamName "role" none 0, .arr [.str "admin", .str "user"])]) :=
  top_level_array_is_equality emptyQB "role" [.str "admin", .str "user"]
    ["role"] "user" 0 (by decide)

/-- C3: evaluation of the cache path of `findAll` at the faulting inputs.
A rejected Redis write aborts the request after the primary result was
already computed, and a rejected Redis read aborts it up front — the
rejection propagates instead of the primary response being returned; only
a cache entry that fails to deserialize is treated as a miss, with the
primary response still returned. -/
theorem findAll_cache_fault_evaluation :
    findAll { redisGet := .resolved none, parse := fun _ => none,
              redisSet := .rejected "redis write failed" } (42 : Nat) =
      .rejected "redis write failed" ∧
    findAll { redisGet := .rejected "redis read failed", parse := fun _ => none,
              redisSet := .resolved () } (42 : Nat) =
      .rejected "redis read failed" ∧
    findAll { redisGet := .resolved (some "not json"), parse := fun _ => none,
              redisSet := .resolved () } (42 : Nat) = .resolved 42 :=
  ⟨rfl, rfl, rfl⟩

/-- Appending a clause via `andWhere` appends exactly its parameter
names. -/
lemma paramBindingNames_andWhere (qb : SelectQueryBuilder) (clause : String)
    (params : List (String × JsValue)) :
    paramBindingNames (qb.andWhere clause params) =
      paramBindingNames qb ++ params.map Prod.fst := by
  simp [paramBindingNames, SelectQueryBuilder.andWhere]

/-- A supported operator succeeds and contributes its generated parameter
name exactly when it emits a clause. -/
lemma applyFilterOperator_names (qb : SelectQueryBuilder) (fieldPath operator : String)
    (value : JsValue) (field : String) (ts : Nat)
    (h : operator ∈ supportedOperators) :
    ∃ qb', applyFilterOperator qb fieldPath operator value field ts = .ok qb' ∧
      paramBindingNames qb' = paramBindingNames qb ++
        (if emitsClause operator value then
          [generateParamName field (some operator) ts] else []) := by
  simp only [supportedOperators, List.mem_cons, List.not_mem_nil, or_false] at h
  rcases h with h | h | h | h | h | h | h | h <;> subst h <;>
    first
    | exact ⟨_, rfl, by simp [paramBindingNames_andWhere, emitsClause]⟩
    | (cases value <;>
        exact ⟨_, rfl, by simp [paramBindingNames_andWhere, emitsClause]⟩)

/-- Folding a list of supported operators succeeds and contributes one
generated name per emitting operator, in operator order. -/
lemma applyOperatorList_names (ops : List (String × JsValue)) (qb : SelectQueryBuilder)
    (fieldPath field : String) (ts : Nat)
    (h : ∀ p ∈ ops, p.1 ∈ supportedOperators) :
    ∃ qb', applyOperatorList qb fieldPath ops field ts = .ok qb' ∧
      paramBindingNames qb' = paramBindingNames qb ++
        (ops.filter (fun p => emitsClause p.1 p.2)).map
          (fun p => generateParamName field (some p.1) ts) := by
  induction ops generalizing qb with
  | nil => exact ⟨qb, rfl, by simp⟩
  | cons p rest ih =>
    obtain ⟨qb', hstep, hnames⟩ :=
      applyFilterOperator_names qb fieldPath p.1 p.2 field ts (h p (by simp))
    obtain ⟨qb'', hrest, hnames'⟩ := ih qb' (fun q hq => h q (by simp [hq]))
    refine ⟨qb'', ?_, ?_⟩
    · simpa [applyOperatorList, hstep] using hrest
    · rw [hnames', hnames]
      by_cases he : emitsClause p.1 p.2 <;>
        simp [he, List.filter_cons, List.append_assoc]

/-- Appending fixed strings on both sides is injective. -/
lemma string_sandwich_injective (a b : String) :
    Function.Injective (fun x : String => a ++ x ++ b) := by
  intro x y hxy
  have h := congrArg String.data hxy
  simp only [String.data_append, List.append_assoc] at h
  exact String.ext (List.append_cancel_right (List.append_cancel_left h))

/-- C2 counterexample: in a single `applyFilters` call at one `Date.now()`
millisecond, the allowlisted fields `a.b` and `a_b` — distinct dotted and
plain field paths — both generate the bind-parameter name `a_b_eq_7`,
because dots are sanitized to underscores and the timestamp suffix does
not disambiguate calls within the same millisecond: the emitted parameter
names are not pairwise distinct. -/
theorem param_name_collision_counterexample :
    (applyFilters emptyQB
        (some [("a.b", .obj [("eq", .num 1)]), ("a_b", .obj [("eq", .num 2)])])
        ["a.b", "a_b"] "user" 7).toOption.map paramBindingNames =
      some ["a_b_eq_7", "a_b_eq_7"] ∧
    ¬ (["a_b_eq_7", "a_b_eq_7"] : List String).Nodup := by
  exact ⟨by decide, by decide⟩

/-- C2 (amended): within one `applyFilters` call at a fixed timestamp, the
parameter names generated for a single field's operator map are pairwise
distinct — the operator segment disambiguates them — so the motivating
case of the same field carrying multiple operators (e.g. `gte` and `lte`)
cannot collide; distinctness across different fields is, however, not
guaranteed (see the counterexample: dot-sanitization can merge two field
paths while `Date.now()` yields the same millisecond for both). -/
theorem same_field_param_names_distinct (field : String)
    (ops : List (String × JsValue)) (allowedFields : List String)
    (entityAlias : String) (ts : Nat)
    (hfield : allowedFields.contains field = true)
    (hops : ∀ p ∈ ops, p.1 ∈ supportedOperators)
    (hnodup : (ops.map Prod.fst).Nodup) :
    ∃ qb', applyFilters emptyQB (some [(field, .obj ops)])
        allowedFields entityAlias ts = .ok qb' ∧
      (paramBindingNames qb').Nodup := by
  have hfind : List.find? (fun x => !(allowedFields.contains x)) [field] = none := by
    rw [List.find?_eq_none]
    intro g hg
    simp only [List.mem_singleton] at hg
    subst hg
    simp only [hfield, Bool.not_true, Bool.false_eq_true, not_false_eq_true]
  obtain ⟨qb', hrun, hnames⟩ := applyOperatorList_names ops emptyQB
    (if field.data.contains '.' then field else entityAlias ++ "." ++ field)
    field ts hops
  refine ⟨qb', ?_, ?_⟩
  · simp only [applyFilters, List.isEmpty_cons, Bool.false_eq_true, if_false,
      List.map_cons, List.map_nil, hfind]
    simp only [applyFilterEntries]
    rw [hrun]
  · rw [hnames]
    have hemp : paramBindingNames emptyQB = [] := rfl
    rw [hemp, List.nil_append]
    have hkeys : ((ops.filter (fun p => emitsClause p.1 p.2)).map Prod.fst).Nodup :=
      hnodup.sublist (List.Sublist.map Prod.fst (List.filter_sublist ops))
    have hrw : (ops.filter (fun p => emitsClause p.1 p.2)).map
        (fun p => generateParamName field (some p.1) ts) =
        ((ops.filter (fun p => emitsClause p.1 p.2)).map Prod.fst).map
          (fun op => generateParamName field (some op) ts) := by
      simp [List.map_map, Function.comp]
    rw [hrw]
    apply hkeys.map
    intro x y hxy
    have hxy' : (sanitizeField field ++ "_") ++ x ++ ("_" ++ toString ts) =
        (sanitizeField field ++ "_") ++ y ++ ("_" ++ toString ts) := by
      simpa [generateParamName, String.append_assoc] using hxy
    exact string_sandwich_injective _ _ hxy'

/-- Witness for C2 (amended): the range filter `{age: {gte: 18, lte: 65}}`
at one timestamp yields pairwise distinct parameter names. -/
theorem same_field_param_names_distinct_witness :
    ∃ qb', applyFilters emptyQB
        (some [("age", .obj [("gte", .num 18), ("lte", .num 65)])])
        ["age"] "user" 3 = .ok qb' ∧
      (paramBindingNames qb').Nodup :=
  same_field_param_names_distinct "age" [("gte", .num 18), ("lte", .num 65)]
    ["age"] "user" 3 (by decide) (by decide) (by decide)

end QueryEngine
